import Mathlib

/-!
Verification of the staff-scheduling optimizer (`staff_scheduling.py`).

The Python program builds a mixed-integer linear program with PuLP:
decision variables `Staff_Assigned[(d, s, c)]`, `Overtime[(d, s, c)]`
(no overtime variables for Nurses), `Staff_Hired[c]`, `Staff_Fired[c]`,
`Total_Staff[c]`; coverage, capacity, weekly-hour and shift-balance
constraints; a wage/overtime/hiring/firing cost objective.  An external
CBC solver assigns (floating-point) values to the variables and
`get_schedule` reads them into a result dictionary.

The shallow embedding below models solver-assigned values as rationals
(CBC's doubles are exact on the magnitudes involved), the constraint set
as predicates over an assignment, and the extraction code as executable
functions returning `Except` where the Python code can raise.
-/

namespace StaffScheduling

/-- The three shifts (`self.shifts`). -/
inductive Shift
  | Morning
  | Evening
  | Night
deriving DecidableEq, Fintype

/-- The three staff categories (`self.staff_categories`). -/
inductive Category
  | Caregivers
  | Nurses
  | SupportStaff
deriving DecidableEq, Fintype

/-- `self.shifts = ['Morning', 'Evening', 'Night']`. -/
def shiftsList : List Shift := [Shift.Morning, Shift.Evening, Shift.Night]

/-- `self.staff_categories = ['Caregivers', 'Nurses', 'Support Staff']`. -/
def staff_categories : List Category :=
  [Category.Caregivers, Category.Nurses, Category.SupportStaff]

/-- `self.hourly_wages`. -/
def hourly_wages : Category → ℕ
  | Category.Caregivers => 300
  | Category.Nurses => 450
  | Category.SupportStaff => 250

/-- `self.regular_hours` (regular hours per week). -/
def regular_hours : Category → ℕ
  | Category.Caregivers => 40
  | Category.Nurses => 35
  | Category.SupportStaff => 30

/-- `self.hiring_cost`. -/
def hiring_cost : Category → ℕ
  | Category.Caregivers => 5000
  | Category.Nurses => 7500
  | Category.SupportStaff => 4000

/-- `self.firing_cost`. -/
def firing_cost : Category → ℕ
  | Category.Caregivers => 3500
  | Category.Nurses => 5000
  | Category.SupportStaff => 2500

/-- `self.historical_demand['September']`. -/
def september_demand : Shift → Category → ℕ := fun s c =>
  match s, c with
  | Shift.Morning, Category.Caregivers => 12
  | Shift.Morning, Category.Nurses => 7
  | Shift.Morning, Category.SupportStaff => 6
  | Shift.Evening, Category.Caregivers => 14
  | Shift.Evening, Category.Nurses => 6
  | Shift.Evening, Category.SupportStaff => 5
  | Shift.Night, Category.Caregivers => 9
  | Shift.Night, Category.Nurses => 5
  | Shift.Night, Category.SupportStaff => 4

/-- `self.historical_demand['October']`. -/
def october_demand : Shift → Category → ℕ := fun s c =>
  match s, c with
  | Shift.Morning, Category.Caregivers => 11
  | Shift.Morning, Category.Nurses => 6
  | Shift.Morning, Category.SupportStaff => 5
  | Shift.Evening, Category.Caregivers => 13
  | Shift.Evening, Category.Nurses => 5
  | Shift.Evening, Category.SupportStaff => 4
  | Shift.Night, Category.Caregivers => 8
  | Shift.Night, Category.Nurses => 4
  | Shift.Night, Category.SupportStaff => 3

/-- `self.historical_demand['November']`. -/
def november_demand : Shift → Category → ℕ := fun s c =>
  match s, c with
  | Shift.Morning, Category.Caregivers => 10
  | Shift.Morning, Category.Nurses => 6
  | Shift.Morning, Category.SupportStaff => 5
  | Shift.Evening, Category.Caregivers => 12
  | Shift.Evening, Category.Nurses => 5
  | Shift.Evening, Category.SupportStaff => 4
  | Shift.Night, Category.Caregivers => 8
  | Shift.Night, Category.Nurses => 4
  | Shift.Night, Category.SupportStaff => 3

/-- `self.historical_demand['December']`. -/
def december_demand : Shift → Category → ℕ := fun s c =>
  match s, c with
  | Shift.Morning, Category.Caregivers => 13
  | Shift.Morning, Category.Nurses => 8
  | Shift.Morning, Category.SupportStaff => 7
  | Shift.Evening, Category.Caregivers => 15
  | Shift.Evening, Category.Nurses => 7
  | Shift.Evening, Category.SupportStaff => 6
  | Shift.Night, Category.Caregivers => 10
  | Shift.Night, Category.Nurses => 6
  | Shift.Night, Category.SupportStaff => 5

/-- `self.historical_demand['January']`. -/
def january_demand : Shift → Category → ℕ := fun s c =>
  match s, c with
  | Shift.Morning, Category.Caregivers => 14
  | Shift.Morning, Category.Nurses => 9
  | Shift.Morning, Category.SupportStaff => 8
  | Shift.Evening, Category.Caregivers => 16
  | Shift.Evening, Category.Nurses => 8
  | Shift.Evening, Category.SupportStaff => 7
  | Shift.Night, Category.Caregivers => 11
  | Shift.Night, Category.Nurses => 7
  | Shift.Night, Category.SupportStaff => 6

/-- `self.historical_demand['February']`. -/
def february_demand : Shift → Category → ℕ := fun s c =>
  match s, c with
  | Shift.Morning, Category.Caregivers => 12
  | Shift.Morning, Category.Nurses => 7
  | Shift.Morning, Category.SupportStaff => 6
  | Shift.Evening, Category.Caregivers => 14
  | Shift.Evening, Category.Nurses => 6
  | Shift.Evening, Category.SupportStaff => 5
  | Shift.Night, Category.Caregivers => 9
  | Shift.Night, Category.Nurses => 5
  | Shift.Night, Category.SupportStaff => 4

/-- The `self.historical_demand` dictionary: lookup by month-name string. -/
def historical_demand (month : String) : Option (Shift → Category → ℕ) :=
  if month = "September" then some september_demand
  else if month = "October" then some october_demand
  else if month = "November" then some november_demand
  else if month = "December" then some december_demand
  else if month = "January" then some january_demand
  else if month = "February" then some february_demand
  else none

/-- The weekend uplift `int(base * 1.1)` of `forecast_demand`.  `1.1` is the
IEEE-754 double `4953959590107546 / 2^52`, and `int(...)` truncates toward
zero, i.e. floor on the non-negative values here.  (For the magnitudes of
the demand table, rounding the float product `base * 1.1` to a double never
moves it across an integer, so truncating the exact rational product is the
same as Python's computation.) -/
def weekendUplift (base : ℕ) : ℕ := base * 4953959590107546 / 4503599627370496

/-- `StaffScheduler.forecast_demand` (lines 96-112): demand for one
`(shift, category)` cell given the month and the day-type string.  The
Python function builds the whole dict in one call; it is a pure function of
its arguments, which the embedding makes literal. -/
def forecast_demand (month : String) (day_type : String) (s : Shift) (c : Category) : ℕ :=
  let base := (historical_demand month).getD february_demand
  if day_type = "weekend" then weekendUplift (base s c) else base s c

/-- Day-type of day `i` of the horizon (line 144): `first_day + i` is a
weekday iff its weekday number `(fw + i) % 7` is below 5, where `fw` is the
weekday number (0 = Monday) of the first day of the month. -/
def day_type_of (fw i : ℕ) : String :=
  if (fw + i) % 7 < 5 then "weekday" else "weekend"

/-- Python exceptions the scheduler can raise. -/
inductive PyErr
  | valueError
  | keyError
deriving DecidableEq

/-- PuLP solve statuses (`pulp.LpStatus` values). -/
inductive SolveStatus
  | NotSolved
  | Optimal
  | Infeasible
  | Unbounded
  | Undefined
deriving DecidableEq

/-- `list(calendar.month_name)`: the empty string followed by the twelve
English month names. -/
def month_name : List String :=
  ["", "January", "February", "March", "April", "May", "June",
   "July", "August", "September", "October", "November", "December"]

/-- Lines 130-134 of `build_model`: `list(calendar.month_name).index(month)`
raises `ValueError` when `month` is not in the list; index `0` (the empty
string) is replaced by today's month. -/
def resolve_month_number (month : String) (todayMonth : ℕ) : Except PyErr ℕ :=
  match month_name.findIdx? (fun x => x = month) with
  | none => Except.error PyErr.valueError
  | some idx => Except.ok (if idx = 0 then todayMonth else idx)

/-- Lines 140-141 of `build_model`: `num_days` is reduced to the month
length when it exceeds it; no other adjustment is made. -/
def clamp_num_days (num_days : ℤ) (month_len : ℕ) : ℤ :=
  if (month_len : ℤ) < num_days then (month_len : ℤ) else num_days

/-- The input-processing prefix of `StaffScheduler.build_model`
(lines 129-143), the only part of building that can raise: resolving the
month name (can raise `ValueError`) and clamping `num_days`.  The remainder
of `build_model` (variable creation, constraints, objective) is total; it
is modeled by `feasible` and `objective_value` below.  Returns the
effective horizon length. -/
def build_model (month : String) (num_days : ℤ) (todayMonth : ℕ)
    (month_len : ℕ → ℕ) : Except PyErr ℤ :=
  match resolve_month_number month todayMonth with
  | Except.error e => Except.error e
  | Except.ok mn => Except.ok (clamp_num_days num_days (month_len mn))

/-- Key of the per-day decision-variable dictionaries: `(d, s, c)`. -/
abbrev Idx : Type := ℕ × Shift × Category

/-- A built-and-solved model handle: `self.problem` together with the
solver-assigned values of the variable dictionaries.  `builtDays = none`
models `self.problem is None` (not built); `some n` records the horizon the
variables were created for.  Values are rationals standing for the solver's
floats. -/
structure Handle where
  builtDays : Option ℕ
  status : SolveStatus
  vReg : Idx → ℚ
  vOt : Idx → ℚ
  vHired : Category → ℚ
  vFired : Category → ℚ
  vTotal : Category → ℚ

/-- `self.initial_staff` default (lines 122-127). -/
def initial_staff_default : Category → ℕ
  | Category.Caregivers => 40
  | Category.Nurses => 30
  | Category.SupportStaff => 20

/-- Variable bounds and integrality (`lowBound=0, cat='Integer'` in every
`LpVariable.dicts` call): each model variable is non-negative and integral
(`den = 1`).  Overtime variables exist only for non-Nurse categories
(line 159). -/
def var_bounds (n : ℕ) (h : Handle) : Prop :=
  (∀ d, d < n → ∀ s c, 0 ≤ h.vReg (d, s, c) ∧ (h.vReg (d, s, c)).den = 1) ∧
  (∀ d, d < n → ∀ s c, c ≠ Category.Nurses →
    0 ≤ h.vOt (d, s, c) ∧ (h.vOt (d, s, c)).den = 1) ∧
  (∀ c, (0 ≤ h.vHired c ∧ (h.vHired c).den = 1) ∧
    (0 ≤ h.vFired c ∧ (h.vFired c).den = 1) ∧
    (0 ≤ h.vTotal c ∧ (h.vTotal c).den = 1))

/-- Constraint `total_staff[c] == initial_staff[c] + hired[c] - fired[c]`
(lines 177-178). -/
def linking (init : Category → ℚ) (h : Handle) : Prop :=
  ∀ c, h.vTotal c = init c + h.vHired c - h.vFired c

/-- Coverage constraints (lines 205-216): per `(d, s, c)`, regular plus
overtime meets demand, except for Nurses whose constraint has no overtime
term. -/
def coverage (month : String) (fw n : ℕ) (h : Handle) : Prop :=
  ∀ d, d < n → ∀ s c,
    if c ≠ Category.Nurses
    then h.vReg (d, s, c) + h.vOt (d, s, c) ≥
      (forecast_demand month (day_type_of fw d) s c : ℚ)
    else h.vReg (d, s, c) ≥ (forecast_demand month (day_type_of fw d) s c : ℚ)

/-- Capacity constraints (lines 218-223): staff assigned to a shift never
exceeds the category's total staff. -/
def capacity (n : ℕ) (h : Handle) : Prop :=
  ∀ c s, ∀ d, d < n → h.vReg (d, s, c) ≤ h.vTotal c

/-- The left-hand side of one weekly-hours constraint (lines 233-236):
total regular hours over days `[ws, we)` and all shifts, 8 hours per
shift. -/
def weekly_sum (h : Handle) (c : Category) (ws we : ℕ) : ℚ :=
  ((List.range' ws (we - ws)).flatMap fun d =>
    shiftsList.map fun s => h.vReg (d, s, c) * 8).sum

/-- Weekly-hours constraints (lines 225-239): for each category and each
`week in range(num_days // 7)`, with `week_start = week * 7` and
`week_end = min((week + 1) * 7, num_days)`, the weekly regular hours stay
within `total_staff[c] * regular_hours[c]`. -/
def weekly (n : ℕ) (h : Handle) : Prop :=
  ∀ c, ∀ w ∈ List.range (n / 7),
    weekly_sum h c (w * 7) (min ((w + 1) * 7) n) ≤ h.vTotal c * (regular_hours c : ℚ)

/-- Shift-distribution constraint (lines 241-254): per category, total
morning-plus-evening regular staffing over the horizon is at least total
night staffing. -/
def shift_balance (n : ℕ) (h : Handle) : Prop :=
  ∀ c,
    ((List.range n).flatMap fun d =>
      [Shift.Morning, Shift.Evening].map fun s => h.vReg (d, s, c)).sum ≥
    ((List.range n).map fun d => h.vReg (d, Shift.Night, c)).sum

/-- The complete constraint set of the model built for `month` over `n`
days (first day's weekday number `fw`, initial staff `init`), in source
order: variable bounds, linking, coverage, capacity, weekly hours, shift
balance.  A solver assignment is a solution of the MILP exactly when it
satisfies this predicate. -/
def feasible (month : String) (fw n : ℕ) (init : Category → ℚ) (h : Handle) : Prop :=
  var_bounds n h ∧ linking init h ∧ coverage month fw n h ∧
    capacity n h ∧ weekly n h ∧ shift_balance n h

/-- The `(d, s, c)` key lists of the nested loops `for s in self.shifts for
c in self.staff_categories`. -/
def scPairs : List (Shift × Category) :=
  shiftsList.flatMap fun s => staff_categories.map fun c => (s, c)

/-- Same with the filter `if c != 'Nurses'` (overtime loops). -/
def scPairsOT : List (Shift × Category) :=
  shiftsList.flatMap fun s =>
    (staff_categories.filter fun c => c != Category.Nurses).map fun c => (s, c)

/-- Keys `(d, s, c) for d in range(n) for s in shifts for c in categories`. -/
def triples (n : ℕ) : List Idx :=
  (List.range n).flatMap fun d => scPairs.map fun p => (d, p.1, p.2)

/-- Keys of the overtime loops: same but only non-Nurse categories. -/
def triplesOT (n : ℕ) : List Idx :=
  (List.range n).flatMap fun d => scPairsOT.map fun p => (d, p.1, p.2)

/-- Dictionary lookup on an association list (Python `dict` access). -/
def findVal {α : Type} [DecidableEq α] : List (α × ℚ) → α → Option ℚ
  | [], _ => none
  | (k, v) :: m, k' => if k = k' then some v else findVal m k'

/-- `pulp.value(self.problem.objective)` (lines 180-201 build the
objective; extraction evaluates it at the solver values): regular wages at
8 hours per shift, overtime at `1.5` times wage (exactly `3/2` as a
double) for non-Nurse categories, plus hiring and firing costs. -/
def objective_value (n : ℕ) (h : Handle) : ℚ :=
  ((triples n).map fun k => h.vReg k * (hourly_wages k.2.2 : ℚ) * 8).sum +
  ((triplesOT n).map fun k => h.vOt k * (hourly_wages k.2.2 : ℚ) * (3 / 2) * 8).sum +
  (staff_categories.map fun c => h.vHired c * (hiring_cost c : ℚ)).sum +
  (staff_categories.map fun c => h.vFired c * (firing_cost c : ℚ)).sum

/-- The `schedule` dictionary returned by `get_schedule`: association
lists in insertion order, plus the per-category staff changes
`(hired, fired, total)` and the objective value. -/
structure ScheduleResult where
  regular : List (Idx × ℚ)
  overtime : List (Idx × ℚ)
  staff_changes : List (Category × ℚ × ℚ × ℚ)
  total_cost : ℚ

/-- The regular-assignment extraction loop (lines 289-295): for each key in
order, if the key is not yet in the dictionary, read
`self.staff_assigned[key]` — a `KeyError` when the day is outside the built
horizon — and insert it. -/
def extend_regular (builtN : ℕ) (v : Idx → ℚ) :
    List (Idx × ℚ) → List Idx → Except PyErr (List (Idx × ℚ))
  | acc, [] => Except.ok acc
  | acc, k :: ks =>
    if (findVal acc k).isSome then extend_regular builtN v acc ks
    else if k.1 < builtN then extend_regular builtN v (acc ++ [(k, v k)]) ks
    else Except.error PyErr.keyError

/-- The overtime extraction loop (lines 297-304): keys with `c != 'Nurses'`
only; the value is `pulp.value(self.overtime_assigned.get(key, 0))`, which
is the variable's value when the key is in the overtime dictionary (day
inside the built horizon and category overtime-eligible) and `0`
otherwise; `.get` never raises. -/
def extend_overtime (builtN : ℕ) (v : Idx → ℚ) :
    List (Idx × ℚ) → List Idx → List (Idx × ℚ)
  | acc, [] => acc
  | acc, k :: ks =>
    if (findVal acc k).isSome then extend_overtime builtN v acc ks
    else
      extend_overtime builtN v
        (acc ++ [(k, if k.1 < builtN ∧ k.2.2 ≠ Category.Nurses then v k else 0)]) ks

/-- `StaffScheduler.get_schedule` (lines 275-314).  Raises `ValueError`
when the model is unbuilt or its status is not `Optimal`; then extracts
the regular map (which can raise `KeyError` for days beyond the built
horizon), the overtime map (non-Nurse keys only), the staff changes and
the objective value. -/
def get_schedule (h : Handle) (num_days : ℕ) : Except PyErr ScheduleResult :=
  match h.builtDays with
  | none => Except.error PyErr.valueError
  | some n =>
    if h.status ≠ SolveStatus.Optimal then Except.error PyErr.valueError
    else
      match extend_regular n h.vReg [] (triples num_days) with
      | Except.error e => Except.error e
      | Except.ok reg =>
        Except.ok
          { regular := reg
            overtime := extend_overtime n h.vOt [] (triplesOT num_days)
            staff_changes :=
              staff_categories.map fun c => (c, h.vHired c, h.vFired c, h.vTotal c)
            total_cost := objective_value n h }

/-- `StaffScheduler.solve_model` (lines 258-273): raises `ValueError`
when the model is not built; otherwise delegates to the external CBC
solver — opaque here, its outcome passed as `solverResult` — and returns
the resulting status. -/
def solve_model (h : Handle) (solverResult : SolveStatus) : Except PyErr SolveStatus :=
  match h.builtDays with
  | none => Except.error PyErr.valueError
  | some _ => Except.ok solverResult

/-- The `(week_start, week_end)` pairs of the weekly-hours loop
(lines 228-230). -/
def weekly_windows (n : ℕ) : List (ℕ × ℕ) :=
  (List.range (n / 7)).map fun w => (w * 7, min ((w + 1) * 7) n)

/-- The result `get_schedule` produces when it succeeds: dense maps over
the requested horizon, built from the solver values (`n` is the built
horizon, `m` the requested one). -/
def extract_result (h : Handle) (n m : ℕ) : ScheduleResult where
  regular := (triples m).map fun k => (k, h.vReg k)
  overtime := (triplesOT m).map fun k => (k, h.vOt k)
  staff_changes := staff_categories.map fun c => (c, h.vHired c, h.vFired c, h.vTotal c)
  total_cost := objective_value n h

/-- The spec-side recomputation of the objective from an extracted
`ScheduleResult` (section 4.2 of the design document): regular wages at 8
hours per shift, overtime at 1.5 times wage and 8 hours per shift over the
overtime entries (which hold the overtime-eligible categories), plus
hiring and firing costs from the staff changes.  The round-trip claim
compares `total_cost` against this. -/
def recomputed_cost (r : ScheduleResult) : ℚ :=
  (r.regular.map fun p => p.2 * (hourly_wages p.1.2.2 : ℚ) * 8).sum +
  (r.overtime.map fun p => p.2 * (hourly_wages p.1.2.2 : ℚ) * (3 / 2) * 8).sum +
  (r.staff_changes.map fun q =>
    q.2.1 * (hiring_cost q.1 : ℚ) + q.2.2.1 * (firing_cost q.1 : ℚ)).sum

/-- A concrete solved handle: one February day (a Monday), every regular
assignment 14, no overtime, no hires or fires, default initial staffing.
It satisfies every model constraint, and instantiates the hypotheses of
the general theorems below. -/
def witness_handle : Handle where
  builtDays := some 1
  status := SolveStatus.Optimal
  vReg := fun _ => 14
  vOt := fun _ => 0
  vHired := fun _ => 0
  vFired := fun _ => 0
  vTotal := fun c => (initial_staff_default c : ℚ)

/-- A solved handle whose solver values are not integral (`5/2`): what the
extraction code does with it decides whether any rounding happens. -/
def fractional_handle : Handle where
  builtDays := some 1
  status := SolveStatus.Optimal
  vReg := fun _ => mkRat 5 2
  vOt := fun _ => 0
  vHired := fun _ => 0
  vFired := fun _ => 0
  vTotal := fun _ => mkRat 5 2

lemma mem_scPairs (p : Shift × Category) : p ∈ scPairs := by
  obtain ⟨s, c⟩ := p
  cases s <;> cases c <;> decide

lemma scPairs_nodup : scPairs.Nodup := by decide

lemma mem_scPairsOT (p : Shift × Category) : p ∈ scPairsOT ↔ p.2 ≠ Category.Nurses := by
  obtain ⟨s, c⟩ := p
  cases s <;> cases c <;> decide

lemma scPairsOT_nodup : scPairsOT.Nodup := by decide

lemma mem_triples (n : ℕ) (k : Idx) : k ∈ triples n ↔ k.1 < n := by
  obtain ⟨d, s, c⟩ := k
  simp only [triples, List.mem_flatMap, List.mem_range, List.mem_map]
  constructor
  · rintro ⟨d', hd', p, hp, h⟩
    rw [Prod.mk.injEq] at h
    exact h.1 ▸ hd'
  · intro hd
    exact ⟨d, hd, (s, c), mem_scPairs _, rfl⟩

lemma mem_triplesOT (n : ℕ) (k : Idx) :
    k ∈ triplesOT n ↔ k.1 < n ∧ k.2.2 ≠ Category.Nurses := by
  obtain ⟨d, s, c⟩ := k
  simp only [triplesOT, List.mem_flatMap, List.mem_range, List.mem_map]
  constructor
  · rintro ⟨d', hd', p, hp, h⟩
    rw [Prod.mk.injEq, Prod.mk.injEq] at h
    refine ⟨h.1 ▸ hd', ?_⟩
    have hp' := (mem_scPairsOT p).mp hp
    simpa [← h.2.2] using hp'
  · rintro ⟨hd, hc⟩
    exact ⟨d, hd, (s, c), (mem_scPairsOT (s, c)).mpr hc, rfl⟩

lemma triples_nodup (n : ℕ) : (triples n).Nodup := by
  induction n with
  | zero => simp [triples]
  | succ n ih =>
    have : triples (n + 1) =
        triples n ++ scPairs.map fun p => (n, p.1, p.2) := by
      simp [triples, List.range_succ]
    rw [this]
    refine List.Nodup.append ih ?_ ?_
    · exact scPairs_nodup.map fun p q h => by
        obtain ⟨ps, pc⟩ := p; obtain ⟨qs, qc⟩ := q
        simpa using h
    · intro k hk hk'
      have h1 : k.1 < n := (mem_triples n k).mp hk
      obtain ⟨p, _, rfl⟩ := List.mem_map.mp hk'
      exact absurd h1 (lt_irrefl n)

lemma triplesOT_nodup (n : ℕ) : (triplesOT n).Nodup := by
  induction n with
  | zero => simp [triplesOT]
  | succ n ih =>
    have : triplesOT (n + 1) =
        triplesOT n ++ scPairsOT.map fun p => (n, p.1, p.2) := by
      simp [triplesOT, List.range_succ]
    rw [this]
    refine List.Nodup.append ih ?_ ?_
    · exact scPairsOT_nodup.map fun p q h => by
        obtain ⟨ps, pc⟩ := p; obtain ⟨qs, qc⟩ := q
        simpa using h
    · intro k hk hk'
      have h1 : k.1 < n := ((mem_triplesOT n k).mp hk).1
      obtain ⟨p, _, rfl⟩ := List.mem_map.mp hk'
      exact absurd h1 (lt_irrefl n)

lemma findVal_eq_none {α : Type} [DecidableEq α] {m : List (α × ℚ)} {k : α}
    (h : ∀ p ∈ m, p.1 ≠ k) : findVal m k = none := by
  induction m with
  | nil => rfl
  | cons p t ih =>
    obtain ⟨a, v⟩ := p
    have ha : a ≠ k := h (a, v) (List.mem_cons_self _ _)
    simp only [findVal, if_neg ha]
    exact ih fun q hq => h q (List.mem_cons_of_mem _ hq)

lemma findVal_map_of_mem {α : Type} [DecidableEq α] {l : List α} (f : α → ℚ) {k : α}
    (hk : k ∈ l) : findVal (l.map fun a => (a, f a)) k = some (f k) := by
  induction l with
  | nil => cases hk
  | cons a t ih =>
    rcases List.mem_cons.mp hk with rfl | hk'
    · simp [findVal]
    · by_cases hak : a = k
      · subst hak; simp [findVal]
      · simp only [List.map_cons, findVal, if_neg hak]
        exact ih hk'

lemma findVal_map_of_not_mem {α : Type} [DecidableEq α] {l : List α} (f : α → ℚ) {k : α}
    (hk : k ∉ l) : findVal (l.map fun a => (a, f a)) k = none := by
  refine findVal_eq_none ?_
  rintro p hp
  obtain ⟨a, ha, rfl⟩ := List.mem_map.mp hp
  exact fun h => hk (h ▸ ha)

lemma findVal_append_of_none {α : Type} [DecidableEq α] {m₁ m₂ : List (α × ℚ)} {k : α}
    (h : findVal m₁ k = none) : findVal (m₁ ++ m₂) k = findVal m₂ k := by
  induction m₁ with
  | nil => rfl
  | cons p t ih =>
    obtain ⟨a, v⟩ := p
    by_cases hak : a = k
    · simp [findVal, if_pos hak] at h
    · simp only [findVal, if_neg hak] at h
      simpa [findVal, if_neg hak] using ih h

lemma extend_regular_eq (bN : ℕ) (v : Idx → ℚ) :
    ∀ (ks : List Idx) (acc : List (Idx × ℚ)),
      (∀ k ∈ ks, k.1 < bN) → (∀ k ∈ ks, findVal acc k = none) → ks.Nodup →
      extend_regular bN v acc ks = Except.ok (acc ++ ks.map fun k => (k, v k)) := by
  intro ks
  induction ks with
  | nil => intro acc _ _ _; simp [extend_regular]
  | cons k t ih =>
    intro acc hlt hnone hnd
    have h0 : findVal acc k = none := hnone k (List.mem_cons_self _ _)
    have hk : k.1 < bN := hlt k (List.mem_cons_self _ _)
    simp only [extend_regular, h0, Option.isSome_none, Bool.false_eq_true,
      if_false, if_pos hk]
    rw [ih (acc ++ [(k, v k)])
      (fun k' hk' => hlt k' (List.mem_cons_of_mem _ hk'))
      (fun k' hk' => by
        rw [findVal_append_of_none (hnone k' (List.mem_cons_of_mem _ hk'))]
        have hkk : k ≠ k' := fun h => (List.nodup_cons.mp hnd).1 (h ▸ hk')
        simp [findVal, if_neg hkk])
      (List.nodup_cons.mp hnd).2]
    simp

lemma extend_regular_err (bN : ℕ) (v : Idx → ℚ) :
    ∀ (ks : List Idx) (acc : List (Idx × ℚ)),
      (∀ k ∈ ks, findVal acc k = none) → ks.Nodup →
      (∃ k ∈ ks, bN ≤ k.1) →
      extend_regular bN v acc ks = Except.error PyErr.keyError := by
  intro ks
  induction ks with
  | nil => rintro acc _ _ ⟨k, hk, -⟩; cases hk
  | cons k t ih =>
    rintro acc hnone hnd ⟨k', hk', hbad⟩
    have h0 : findVal acc k = none := hnone k (List.mem_cons_self _ _)
    simp only [extend_regular, h0, Option.isSome_none, Bool.false_eq_true, if_false]
    by_cases hk : k.1 < bN
    · rw [if_pos hk]
      rcases List.mem_cons.mp hk' with rfl | hmem
      · exact absurd hk (not_lt.mpr hbad)
      · exact ih (acc ++ [(k, v k)])
          (fun k'' hk'' => by
            rw [findVal_append_of_none (hnone k'' (List.mem_cons_of_mem _ hk''))]
            have hkk : k ≠ k'' := fun h => (List.nodup_cons.mp hnd).1 (h ▸ hk'')
            simp [findVal, if_neg hkk])
          (List.nodup_cons.mp hnd).2 ⟨k', hmem, hbad⟩
    · rw [if_neg hk]

lemma extend_overtime_eq (bN : ℕ) (v : Idx → ℚ) :
    ∀ (ks : List Idx) (acc : List (Idx × ℚ)),
      (∀ k ∈ ks, findVal acc k = none) → ks.Nodup →
      extend_overtime bN v acc ks =
        acc ++ ks.map fun k =>
          (k, if k.1 < bN ∧ k.2.2 ≠ Category.Nurses then v k else 0) := by
  intro ks
  induction ks with
  | nil => intro acc _ _; simp [extend_overtime]
  | cons k t ih =>
    intro acc hnone hnd
    have h0 : findVal acc k = none := hnone k (List.mem_cons_self _ _)
    simp only [extend_overtime, h0, Option.isSome_none, Bool.false_eq_true, if_false]
    rw [ih (acc ++ [(k, if k.1 < bN ∧ k.2.2 ≠ Category.Nurses then v k else 0)])
      (fun k' hk' => by
        rw [findVal_append_of_none (hnone k' (List.mem_cons_of_mem _ hk'))]
        have hkk : k ≠ k' := fun h => (List.nodup_cons.mp hnd).1 (h ▸ hk')
        simp [findVal, if_neg hkk])
      (List.nodup_cons.mp hnd).2]
    simp

lemma extract_result_regular (h : Handle) (n m : ℕ) :
    (extract_result h n m).regular = (triples m).map fun k => (k, h.vReg k) := rfl

lemma extract_result_overtime (h : Handle) (n m : ℕ) :
    (extract_result h n m).overtime = (triplesOT m).map fun k => (k, h.vOt k) := rfl

lemma extract_result_total_cost (h : Handle) (n m : ℕ) :
    (extract_result h n m).total_cost = objective_value n h := rfl

lemma extract_result_staff_changes (h : Handle) (n m : ℕ) :
    (extract_result h n m).staff_changes =
      staff_categories.map fun c => (c, h.vHired c, h.vFired c, h.vTotal c) := rfl

/-- When the handle is built for `n` days with an `Optimal` status and at
most `n` days are requested, extraction succeeds and produces the dense
maps of `extract_result`. -/
lemma get_schedule_ok (h : Handle) (n m : ℕ) (hb : h.builtDays = some n)
    (hs : h.status = SolveStatus.Optimal) (hm : m ≤ n) :
    get_schedule h m = Except.ok (extract_result h n m) := by
  unfold get_schedule
  rw [hb]
  simp only [hs, ne_eq, not_true_eq_false, if_false]
  rw [extend_regular_eq n h.vReg (triples m) []
    (fun k hk => lt_of_lt_of_le ((mem_triples m k).mp hk) hm)
    (fun k _ => rfl) (triples_nodup m)]
  rw [extend_overtime_eq n h.vOt (triplesOT m) [] (fun k _ => rfl) (triplesOT_nodup m)]
  simp only [List.nil_append]
  congr 1
  unfold extract_result
  congr 1
  refine List.map_congr_left fun k hk => ?_
  obtain ⟨hk1, hk2⟩ := (mem_triplesOT m k).mp hk
  rw [if_pos ⟨lt_of_lt_of_le hk1 hm, hk2⟩]

/-- Requesting more days than were built makes the regular-extraction loop
hit a missing key: `KeyError`. -/
lemma get_schedule_keyerror (h : Handle) (n m : ℕ) (hb : h.builtDays = some n)
    (hs : h.status = SolveStatus.Optimal) (hm : n < m) :
    get_schedule h m = Except.error PyErr.keyError := by
  unfold get_schedule
  rw [hb]
  simp only [hs, ne_eq, not_true_eq_false, if_false]
  rw [extend_regular_err n h.vReg (triples m) [] (fun k _ => rfl) (triples_nodup m)
    ⟨(n, Shift.Morning, Category.Caregivers), (mem_triples m _).mpr hm, le_refl n⟩]

/-- C3: the month-name resolution of `build_model` (its only failure
point), evaluated at an unrecognized month: the claim says building never
raises, substituting the forecaster's default table; the code raises
`ValueError` from `list(calendar.month_name).index(month)` before its own
"month name is not recognized" fallback (which only catches the empty
string) can run.  The second conjunct shows the fallback the claim
describes does exist one level down: the forecaster itself substitutes the
February table for a month absent from the demand table. -/
theorem build_model_unknown_month_raises :
    build_model "Smarch" 28 3 (fun _ => 31) = Except.error PyErr.valueError ∧
      (∀ s c, forecast_demand "March" "weekday" s c = february_demand s c) := by
  constructor
  · rfl
  · decide

/-- C4 (counterexample): `num_days = 0` is not raised to 1 — `build_model`
applies no lower clamp, so the claimed clamping to `[1, month length]` is
false. -/
theorem clamp_no_lower_bound :
    clamp_num_days 0 28 = 0 ∧ clamp_num_days 0 28 ≠ 1 := by
  constructor <;> decide

/-- C4 (amended): `build_model` only clamps from above — `num_days` larger
than the month length is reduced to the month length and every other
value, including zero and negatives, passes through unchanged (an empty
horizon); equivalently the effective horizon is `min num_days month_len`,
with no lower clamp to 1. -/
theorem clamp_num_days_eq_min (num_days : ℤ) (month_len : ℕ) :
    clamp_num_days num_days month_len = min num_days (month_len : ℤ) := by
  unfold clamp_num_days
  split <;> omega

/-- C5: for every month present in the historical table, the forecast is
the base table value unchanged on weekdays, and exactly
`floor(1.1 * weekday value)` (truncated integer of the 10% uplift) on
weekends; `forecast_demand` is a pure function of its arguments by
construction, so it is deterministic. -/
theorem forecast_weekend_uplift (m : String) (t : Shift → Category → ℕ)
    (ht : historical_demand m = some t) :
    ∀ s c, forecast_demand m "weekday" s c = t s c ∧
      forecast_demand m "weekend" s c = 11 * forecast_demand m "weekday" s c / 10 := by
  by_cases h1 : m = "September"
  · subst h1
    rw [show t = september_demand by
      simpa [historical_demand] using ht.symm]
    decide
  by_cases h2 : m = "October"
  · subst h2
    rw [show t = october_demand by
      simpa [historical_demand, h1] using ht.symm]
    decide
  by_cases h3 : m = "November"
  · subst h3
    rw [show t = november_demand by
      simpa [historical_demand] using ht.symm]
    decide
  by_cases h4 : m = "December"
  · subst h4
    rw [show t = december_demand by
      simpa [historical_demand] using ht.symm]
    decide
  by_cases h5 : m = "January"
  · subst h5
    rw [show t = january_demand by
      simpa [historical_demand] using ht.symm]
    decide
  by_cases h6 : m = "February"
  · subst h6
    rw [show t = february_demand by
      simpa [historical_demand] using ht.symm]
    decide
  · exfalso
    rw [historical_demand, if_neg h1, if_neg h2, if_neg h3, if_neg h4, if_neg h5,
      if_neg h6] at ht
    exact Option.noConfusion ht

/-- C5 witness: the theorem applied to September and the Morning/Caregiver
cell. -/
theorem forecast_weekend_uplift_witness :
    forecast_demand "September" "weekday" Shift.Morning Category.Caregivers =
        september_demand Shift.Morning Category.Caregivers ∧
      forecast_demand "September" "weekend" Shift.Morning Category.Caregivers =
        11 * forecast_demand "September" "weekday" Shift.Morning Category.Caregivers / 10 :=
  forecast_weekend_uplift "September" september_demand rfl Shift.Morning Category.Caregivers

/-- C6: the weekly-hours loop runs over exactly the `n / 7` complete
windows starting at days `0, 7, 14, ...`, each covering seven days; a day
of a partial trailing week (at or past `7 * (n / 7)`) lies in none of the
windows; and the weekly constraint set is exactly one constraint per
window bounding the window's regular hours by
`total[c] * regular_hours[c]`. -/
theorem weekly_hours_complete_windows (n : ℕ) :
    weekly_windows n = (List.range (n / 7)).map (fun w => (w * 7, w * 7 + 7)) ∧
      (∀ p ∈ weekly_windows n, ∀ d, 7 * (n / 7) ≤ d → ¬(p.1 ≤ d ∧ d < p.2)) ∧
      (∀ h : Handle, weekly n h ↔
        ∀ c, ∀ p ∈ weekly_windows n,
          weekly_sum h c p.1 p.2 ≤ h.vTotal c * (regular_hours c : ℚ)) := by
  refine ⟨?_, ?_, ?_⟩
  · unfold weekly_windows
    refine List.map_congr_left fun w hw => ?_
    have hw' := List.mem_range.mp hw
    have : min ((w + 1) * 7) n = w * 7 + 7 := by omega
    rw [this]
  · intro p hp d hd
    obtain ⟨w, hw, rfl⟩ := List.mem_map.mp hp
    have hw' := List.mem_range.mp hw
    simp only [not_and, not_lt]
    intro _
    omega
  · intro h
    constructor
    · intro H c p hp
      obtain ⟨w, hw, rfl⟩ := List.mem_map.mp hp
      exact H c w hw
    · intro H c w hw
      exact H c (w * 7, min ((w + 1) * 7) n) (List.mem_map_of_mem _ hw)

/-- C7: `solve_model` raises `ValueError` exactly when called on an
unbuilt handle; `get_schedule` raises `ValueError` exactly when the handle
is unbuilt or its status is not `Optimal`; on a built, optimally solved
handle no such state error is raised (only the horizon-overrun `KeyError`
of C10 remains possible). -/
theorem state_error_guards (h : Handle) (st : SolveStatus) (n m : ℕ) :
    (h.builtDays = none → solve_model h st = Except.error PyErr.valueError) ∧
      (h.builtDays ≠ none → solve_model h st = Except.ok st) ∧
      (h.builtDays = none ∨ h.status ≠ SolveStatus.Optimal →
        get_schedule h m = Except.error PyErr.valueError) ∧
      (h.builtDays = some n → h.status = SolveStatus.Optimal →
        get_schedule h m ≠ Except.error PyErr.valueError) := by
  refine ⟨?_, ?_, ?_, ?_⟩
  · intro hb
    unfold solve_model
    rw [hb]
  · intro hb
    unfold solve_model
    cases hbd : h.builtDays with
    | none => exact absurd hbd hb
    | some k => rfl
  · rintro (hb | hs)
    · unfold get_schedule
      rw [hb]
    · unfold get_schedule
      cases hbd : h.builtDays with
      | none => rfl
      | some k => simp [hs]
  · intro hb hs
    rcases le_or_lt m n with hm | hm
    · rw [get_schedule_ok h n m hb hs hm]
      exact fun hcontra => Except.noConfusion hcontra
    · rw [get_schedule_keyerror h n m hb hs hm]
      intro hcontra
      exact PyErr.noConfusion (Except.error.inj hcontra)

/-- The concrete handle `witness_handle` satisfies every constraint of the
model built for one February day starting on a Monday with the default
initial staffing. -/
lemma feasible_witness :
    feasible "February" 0 1 (fun c => (initial_staff_default c : ℚ)) witness_handle := by
  refine ⟨⟨?_, ?_, ?_⟩, ?_, ?_, ?_, ?_, ?_⟩
  · intro d _ s c
    exact ⟨by norm_num [witness_handle], rfl⟩
  · intro d _ s c _
    exact ⟨le_refl 0, rfl⟩
  · intro c
    exact ⟨⟨le_refl 0, rfl⟩, ⟨le_refl 0, rfl⟩, Nat.cast_nonneg _, Rat.den_natCast _⟩
  · intro c
    show (initial_staff_default c : ℚ) = (initial_staff_default c : ℚ) + 0 - 0
    ring
  · intro d hd s c
    have hd0 : d = 0 := Nat.lt_one_iff.mp hd
    subst hd0
    have hf : forecast_demand "February" (day_type_of 0 0) s c ≤ 14 := by
      revert s c
      decide
    have hfq : (forecast_demand "February" (day_type_of 0 0) s c : ℚ) ≤ 14 := by
      exact_mod_cast hf
    by_cases hc : c = Category.Nurses
    · subst hc
      rw [if_neg fun hne => hne rfl]
      exact hfq
    · rw [if_pos hc]
      show (14 : ℚ) + 0 ≥ _
      linarith
  · intro c s d _
    show (14 : ℚ) ≤ (initial_staff_default c : ℚ)
    cases c <;> norm_num [initial_staff_default]
  · intro c w hw
    simp at hw
  · intro c
    show ((List.range 1).flatMap fun d =>
        [Shift.Morning, Shift.Evening].map fun _ => (14 : ℚ)).sum ≥
      ((List.range 1).map fun _ => (14 : ℚ)).sum
    norm_num [List.range_succ]

/-- C1: the model's coverage constraints are, per `(day, shift, category)`,
`regular + overtime ≥ demand` with the overtime term absent for Nurses
(`coverage` in `feasible`); consequently, any solved handle — one whose
solver values satisfy the built constraint set — extracts to a schedule in
which regular plus overtime (reading a missing overtime entry as 0, as
every consumer of the schedule does) meets the forecasted demand on every
triple, and the Nurses' overtime so read is always 0. -/
theorem solved_schedule_covers_demand (month : String) (fw : ℕ)
    (init : Category → ℚ) (h : Handle) (n : ℕ) (hb : h.builtDays = some n)
    (hs : h.status = SolveStatus.Optimal)
    (hf : feasible month fw n init h) :
    ∃ r, get_schedule h n = Except.ok r ∧
      (∀ d, d < n → ∀ s c,
        (findVal r.regular (d, s, c)).getD 0 + (findVal r.overtime (d, s, c)).getD 0 ≥
          (forecast_demand month (day_type_of fw d) s c : ℚ)) ∧
      (∀ d s, (findVal r.overtime (d, s, Category.Nurses)).getD 0 = 0) := by
  refine ⟨extract_result h n n, get_schedule_ok h n n hb hs (le_refl n), ?_, ?_⟩
  · intro d hd s c
    have hcov := hf.2.2.1 d hd s c
    rw [extract_result_regular, extract_result_overtime,
      findVal_map_of_mem _ ((mem_triples n (d, s, c)).mpr hd)]
    by_cases hc : c = Category.Nurses
    · subst hc
      rw [findVal_map_of_not_mem _ fun hmem => ((mem_triplesOT n _).mp hmem).2 rfl]
      rw [if_neg fun hne => hne rfl] at hcov
      simpa using hcov
    · rw [findVal_map_of_mem _ ((mem_triplesOT n (d, s, c)).mpr ⟨hd, hc⟩)]
      rw [if_pos hc] at hcov
      simpa using hcov
  · intro d s
    rw [extract_result_overtime,
      findVal_map_of_not_mem _ fun hmem => ((mem_triplesOT n _).mp hmem).2 rfl]
    rfl

/-- C1 witness: the coverage conclusion instantiated on the concrete
solved February handle. -/
theorem solved_schedule_covers_demand_witness :
    ∃ r, get_schedule witness_handle 1 = Except.ok r ∧
      (∀ d, d < 1 → ∀ s c,
        (findVal r.regular (d, s, c)).getD 0 + (findVal r.overtime (d, s, c)).getD 0 ≥
          (forecast_demand "February" (day_type_of 0 d) s c : ℚ)) ∧
      (∀ d s, (findVal r.overtime (d, s, Category.Nurses)).getD 0 = 0) :=
  solved_schedule_covers_demand "February" 0 (fun c => (initial_staff_default c : ℚ))
    witness_handle 1 rfl rfl feasible_witness

/-- C2: on any solved handle, `total_cost` — the objective evaluated at
the solver values — equals the cost recomputed from the extracted maps:
regular wages at 8 hours, overtime at 1.5 times wage over the (overtime-
eligible) overtime entries, plus hiring and firing costs from the staff
changes. -/
theorem total_cost_roundtrip (h : Handle) (n : ℕ) (hb : h.builtDays = some n)
    (hs : h.status = SolveStatus.Optimal) :
    ∃ r, get_schedule h n = Except.ok r ∧ r.total_cost = recomputed_cost r := by
  refine ⟨extract_result h n n, get_schedule_ok h n n hb hs (le_refl n), ?_⟩
  rw [extract_result_total_cost]
  unfold recomputed_cost
  rw [extract_result_regular, extract_result_overtime, extract_result_staff_changes]
  simp only [List.map_map]
  have hchanges :
      (staff_categories.map
        ((fun q => q.2.1 * (hiring_cost q.1 : ℚ) + q.2.2.1 * (firing_cost q.1 : ℚ)) ∘
          fun c => (c, h.vHired c, h.vFired c, h.vTotal c))).sum =
      (staff_categories.map fun c => h.vHired c * (hiring_cost c : ℚ)).sum +
        (staff_categories.map fun c => h.vFired c * (firing_cost c : ℚ)).sum := by
    simp [staff_categories, Function.comp_def]
    ring
  rw [hchanges]
  unfold objective_value
  have e1 : (triples n).map
      ((fun p => p.2 * (hourly_wages p.1.2.2 : ℚ) * 8) ∘ fun k => (k, h.vReg k)) =
      (triples n).map fun k => h.vReg k * (hourly_wages k.2.2 : ℚ) * 8 := rfl
  have e2 : (triplesOT n).map
      ((fun p => p.2 * (hourly_wages p.1.2.2 : ℚ) * (3 / 2) * 8) ∘ fun k => (k, h.vOt k)) =
      (triplesOT n).map fun k => h.vOt k * (hourly_wages k.2.2 : ℚ) * (3 / 2) * 8 := rfl
  rw [e1, e2]
  ring

/-- C2 witness: the round-trip equality on the concrete solved February
handle. -/
theorem total_cost_roundtrip_witness :
    ∃ r, get_schedule witness_handle 1 = Except.ok r ∧
      r.total_cost = recomputed_cost r :=
  total_cost_roundtrip witness_handle 1 rfl rfl

/-- C8 (counterexample): on a solved one-day handle, the extracted
overtime map has NO entry at `(0, Morning, Nurses)` — the extraction loop
skips Nurses — so the claim that every triple is present in the overtime
map with Nurses' entries equal to 0 is false. -/
theorem nurses_overtime_entry_absent :
    (get_schedule witness_handle 1).toOption.map
      (fun r => findVal r.overtime (0, Shift.Morning, Category.Nurses)) = some none := by
  rw [get_schedule_ok witness_handle 1 1 rfl rfl (le_refl 1)]
  show some (findVal (extract_result witness_handle 1 1).overtime
    (0, Shift.Morning, Category.Nurses)) = some none
  rw [extract_result_overtime]
  exact congrArg some
    (findVal_map_of_not_mem _ fun hmem => ((mem_triplesOT 1 _).mp hmem).2 rfl)

/-- C8 (amended): every triple of the horizon has an entry in the regular
map; the overtime map has an entry exactly for the triples whose category
is overtime-eligible (not Nurses) — Nurses' overtime entries are absent,
and consumers of the schedule read them as 0 by defaulting lookups. -/
theorem extraction_entry_shape (h : Handle) (n : ℕ) (hb : h.builtDays = some n)
    (hs : h.status = SolveStatus.Optimal) :
    ∃ r, get_schedule h n = Except.ok r ∧
      (∀ d, d < n → ∀ s c, findVal r.regular (d, s, c) = some (h.vReg (d, s, c))) ∧
      (∀ d s c, findVal r.overtime (d, s, c) =
        if d < n ∧ c ≠ Category.Nurses then some (h.vOt (d, s, c)) else none) := by
  refine ⟨extract_result h n n, get_schedule_ok h n n hb hs (le_refl n), ?_, ?_⟩
  · intro d hd s c
    rw [extract_result_regular]
    exact findVal_map_of_mem _ ((mem_triples n _).mpr hd)
  · intro d s c
    rw [extract_result_overtime]
    by_cases hdc : d < n ∧ c ≠ Category.Nurses
    · rw [if_pos hdc]
      exact findVal_map_of_mem _ ((mem_triplesOT n _).mpr hdc)
    · rw [if_neg hdc]
      exact findVal_map_of_not_mem _ fun hmem => hdc ((mem_triplesOT n _).mp hmem)

/-- C8 witness: the amended entry-shape conclusion on the concrete solved
February handle. -/
theorem extraction_entry_shape_witness :
    ∃ r, get_schedule witness_handle 1 = Except.ok r ∧
      (∀ d, d < 1 → ∀ s c,
        findVal r.regular (d, s, c) = some (witness_handle.vReg (d, s, c))) ∧
      (∀ d s c, findVal r.overtime (d, s, c) =
        if d < 1 ∧ c ≠ Category.Nurses then some (witness_handle.vOt (d, s, c))
        else none) :=
  extraction_entry_shape witness_handle 1 rfl rfl

/-- C9 (counterexample): extraction performs no rounding at all — a solver
value `5/2` is stored in the result as `5/2`, which is not an integer
(its reduced denominator is 2), so the claim that every exposed
regular/overtime value is rounded to a non-negative integer is false. -/
theorem extraction_does_not_round :
    (get_schedule fractional_handle 1).toOption.map
      (fun r => findVal r.regular (0, Shift.Morning, Category.Caregivers)) =
      some (some (mkRat 5 2)) ∧ (mkRat 5 2).den ≠ 1 := by
  constructor
  · rw [get_schedule_ok fractional_handle 1 1 rfl rfl (le_refl 1)]
    show some (findVal (extract_result fractional_handle 1 1).regular
      (0, Shift.Morning, Category.Caregivers)) = some (some (mkRat 5 2))
    rw [extract_result_regular]
    exact congrArg some
      (findVal_map_of_mem _ ((mem_triples 1 _).mpr (by omega)))
  · decide

/-- C9 (amended): `get_schedule` copies every solver-assigned value into
the result unchanged — no rounding, no clamping — so the exposed values
are integral only insofar as the solver returns integral values. -/
theorem extraction_passes_values_unchanged (h : Handle) (n : ℕ)
    (hb : h.builtDays = some n) (hs : h.status = SolveStatus.Optimal) :
    ∃ r, get_schedule h n = Except.ok r ∧
      (∀ k ∈ triples n, findVal r.regular k = some (h.vReg k)) ∧
      (∀ k ∈ triplesOT n, findVal r.overtime k = some (h.vOt k)) := by
  refine ⟨extract_result h n n, get_schedule_ok h n n hb hs (le_refl n), ?_, ?_⟩
  · intro k hk
    rw [extract_result_regular]
    exact findVal_map_of_mem _ hk
  · intro k hk
    rw [extract_result_overtime]
    exact findVal_map_of_mem _ hk

/-- C9 witness: value pass-through on the concrete fractional handle. -/
theorem extraction_passes_values_unchanged_witness :
    ∃ r, get_schedule fractional_handle 1 = Except.ok r ∧
      (∀ k ∈ triples 1, findVal r.regular k = some (fractional_handle.vReg k)) ∧
      (∀ k ∈ triplesOT 1, findVal r.overtime k = some (fractional_handle.vOt k)) :=
  extraction_passes_values_unchanged fractional_handle 1 rfl rfl

/-- C10: `get_schedule`'s `num_days` argument is independent of the built
horizon `n`.  Requesting `m ≤ n` days succeeds with entries for exactly
the first `m` days (regular: all triples with day below `m`; overtime:
those with an overtime-eligible category); requesting `m > n` days fails
with a `KeyError` rather than defaulting the extra days. -/
theorem extraction_horizon_guard (h : Handle) (n : ℕ)
    (hb : h.builtDays = some n) (hs : h.status = SolveStatus.Optimal) :
    (∀ m, m ≤ n → ∃ r, get_schedule h m = Except.ok r ∧
      (∀ k : Idx, (findVal r.regular k).isSome ↔ k.1 < m) ∧
      (∀ k : Idx, (findVal r.overtime k).isSome ↔ k.1 < m ∧ k.2.2 ≠ Category.Nurses)) ∧
      (∀ m, n < m → get_schedule h m = Except.error PyErr.keyError) := by
  constructor
  · intro m hm
    refine ⟨extract_result h n m, get_schedule_ok h n m hb hs hm, ?_, ?_⟩
    · intro k
      rw [extract_result_regular]
      by_cases hk : k.1 < m
      · rw [findVal_map_of_mem _ ((mem_triples m k).mpr hk)]
        simp [hk]
      · rw [findVal_map_of_not_mem _ fun hmem => hk ((mem_triples m k).mp hmem)]
        simp [hk]
    · intro k
      rw [extract_result_overtime]
      by_cases hk : k.1 < m ∧ k.2.2 ≠ Category.Nurses
      · rw [findVal_map_of_mem _ ((mem_triplesOT m k).mpr hk)]
        simp [hk]
      · rw [findVal_map_of_not_mem _ fun hmem => hk ((mem_triplesOT m k).mp hmem)]
        simp [hk]
  · intro m hm
    exact get_schedule_keyerror h n m hb hs hm

/-- C10 witness: the horizon-guard conclusion on the concrete solved
February handle (built horizon 1). -/
theorem extraction_horizon_guard_witness :
    (∀ m, m ≤ 1 → ∃ r, get_schedule witness_handle m = Except.ok r ∧
      (∀ k : Idx, (findVal r.regular k).isSome ↔ k.1 < m) ∧
      (∀ k : Idx, (findVal r.overtime k).isSome ↔ k.1 < m ∧ k.2.2 ≠ Category.Nurses)) ∧
      (∀ m, 1 < m → get_schedule witness_handle m = Except.error PyErr.keyError) :=
  extraction_horizon_guard witness_handle 1 rfl rfl

end StaffScheduling
